import Mathlib

/-!
Verification of the CSV ingestion service in `main.py`: the table-name
sanitiser (`sanitize_table_name`), the per-chunk loader
(`save_dataframe_to_db`), the pipeline orchestrator with its webhook
notifications (`process_csv_generic`, `send_webhook`), and the chunked
CSV fetchers for Google Drive and Spreadsheet sources
(`fetch_drive_csv`, `fetch_spreadsheet`).

Python strings are modelled as `String` (a list of Unicode code
points).  Character-level primitives (`re`'s word-character class,
`str.lower` with its İ full-casing expansion) are modelled exactly on
the ASCII and Latin-1 ranges and at every individual code point above
U+00FF that a theorem below evaluates; the remaining approximation for
the rest of that range is recorded on each primitive, and every
universal theorem below is restricted to inputs on which the model is
exact.
-/

namespace FastApiN8n

/-- ASCII letter, the regex class `[a-zA-Z]`. -/
def isAsciiLetter (c : Char) : Bool :=
  (65 ≤ c.toNat && c.toNat ≤ 90) || (97 ≤ c.toNat && c.toNat ≤ 122)

/-- ASCII digit, the regex class `[0-9]`. -/
def isAsciiDigit (c : Char) : Bool :=
  48 ≤ c.toNat && c.toNat ≤ 57

/-- ASCII word character, the regex class `[a-zA-Z0-9_]` (95 = `_`). -/
def isAsciiWord (c : Char) : Bool :=
  isAsciiLetter c || isAsciiDigit c || c.toNat = 95

/-- Python `re`'s word-character class `\w` for `str` patterns (Unicode
alphanumerics and the underscore).  Modelled exactly on ASCII
(`[a-zA-Z0-9_]`) and on the Latin-1 supplement (the letters ª µ º and
U+00C0–U+00FF except × U+00D7 and ÷ U+00F7, the superscript digits
² ³ ¹, and the vulgar fractions ¼ ½ ¾, which are numeric for Python).
Above U+00FF, Python's `\w` excludes punctuation, symbols and
combining marks; that region is modelled as word characters except
the combining diacritical marks block U+0300–U+036F — exact at every
code point above U+00FF that a theorem below evaluates (İ U+0130 and
the combining dot above U+0307). -/
def pyIsWordChar (c : Char) : Bool :=
  isAsciiWord c ||
  (c.toNat = 0xAA || c.toNat = 0xB5 || c.toNat = 0xBA ||
   c.toNat = 0xB2 || c.toNat = 0xB3 || c.toNat = 0xB9 ||
   c.toNat = 0xBC || c.toNat = 0xBD || c.toNat = 0xBE) ||
  (0xC0 ≤ c.toNat && c.toNat ≤ 0xFF && c.toNat ≠ 0xD7 && c.toNat ≠ 0xF7) ||
  (0x100 ≤ c.toNat && (c.toNat < 0x300 || 0x36F < c.toNat))

/-- The characters `str.lower` moves: `A`–`Z` and the Latin-1
capitals `À`–`Þ` except `×`. -/
def isCasedUpper (c : Char) : Bool :=
  (65 ≤ c.toNat && c.toNat ≤ 90) ||
  (0xC0 ≤ c.toNat && c.toNat ≤ 0xDE && c.toNat ≠ 0xD7)

/-- The single-character part of Python `str.lower`: `A`–`Z` and the
Latin-1 capitals `À`–`Þ` (except ×) map down by 0x20, and Ÿ (U+0178)
maps to ÿ (U+00FF); other code points above U+00FF are modelled as
fixed (the rest of the Unicode simple-case table; no theorem below
depends on it).  The one one-to-many lowercase mapping, İ,
lives in `pyLowerChar`. -/
def pyLower (c : Char) : Char :=
  if isCasedUpper c then Char.ofNat (c.toNat + 0x20)
  else if c.toNat = 0x178 then Char.ofNat 0xFF
  else c

/-- Python `str.lower` of one character, as a character list: İ
(U+0130) is the sole code point whose unconditional lowercase mapping
expands, to `i` followed by the combining dot above (U+0307, per
Unicode SpecialCasing); every other character lowers character-wise
through `pyLower`. -/
def pyLowerChar (c : Char) : List Char :=
  if c.toNat = 0x130 then ['i', Char.ofNat 0x307] else [pyLower c]

/-- Python `str.lower` on a character list: the concatenation of the
per-character lowercase mappings. -/
def lowerData : List Char → List Char
  | [] => []
  | c :: cs => pyLowerChar c ++ lowerData cs

/-- Python `str.lower` on a whole string. -/
def pyStrLower (s : String) : String :=
  ⟨lowerData s.data⟩

/-- Scan for `re.sub(r"\W+", "_", name)`.  The boolean records whether
the scan is inside a run of non-word characters whose single
replacement `_` has already been emitted. -/
def pySubWPlusAux : List Char → Bool → List Char
  | [], _ => []
  | c :: cs, inRun =>
    if pyIsWordChar c then c :: pySubWPlusAux cs false
    else if inRun then pySubWPlusAux cs true
    else '_' :: pySubWPlusAux cs true

/-- `re.sub(r"\W+", "_", name)`: replace every maximal run of non-word
characters by a single underscore. -/
def pySubWPlus (l : List Char) : List Char :=
  pySubWPlusAux l false

/-- `re.match(r"^[a-zA-Z]", name)` succeeds. -/
def startsWithAsciiLetter : List Char → Bool
  | [] => false
  | c :: _ => isAsciiLetter c

/-- The conditional `name = f"usuario_{name}"` guarded by
`if not re.match(r"^[a-zA-Z]", name)`. -/
def pyAddUsuario (l : List Char) : List Char :=
  if startsWithAsciiLetter l then l else "usuario_".data ++ l

/-- `sanitize_table_name` from `main.py`: collapse non-word runs to
`_`, prepend `usuario_` when the result does not start with an ASCII
letter, then lowercase. -/
def sanitize_table_name (s : String) : String :=
  ⟨lowerData (pyAddUsuario (pySubWPlus s.data))⟩

/-- The regular expression `^[a-zA-Z][a-zA-Z0-9_]*$` as a predicate on
the character list of a string. -/
def matchesIdent : List Char → Bool
  | [] => false
  | c :: cs => isAsciiLetter c && cs.all isAsciiWord

/-! ### Data frames and the database

A pandas `DataFrame` is modelled as an ordered column list plus rows of
cells (cell values as strings — the pipeline never inspects cell
contents except to overwrite the `chat_id` column).  The relational
database reached through SQLAlchemy is modelled as a map from table
name to stored frame. -/

/-- A pandas DataFrame: ordered column names and rows of cells. -/
structure Frame where
  cols : List String
  rows : List (List String)
deriving DecidableEq, Repr

/-- The relational database: table name to stored table. -/
def DB : Type := String → Option Frame

/-- A database with no tables. -/
def emptyDB : DB := fun _ => none

/-- Store (create or overwrite) one table. -/
def dbSet (db : DB) (t : String) (f : Frame) : DB :=
  fun n => if n = t then some f else db n

/-- One row of `df[name] = v` when column `name` is present: cells in
every column labelled `name` are overwritten with `v` (columns and the
row are walked in lockstep). -/
def overwriteRow (name v : String) : List String → List String → List String
  | [], r => r
  | _, [] => []
  | c :: cs, x :: xs => (if c = name then v else x) :: overwriteRow name v cs xs

/-- Pandas column assignment `df[name] = v` with a scalar `v`: if the
label exists, every cell of every column carrying it is overwritten;
otherwise a new column of `v`s is appended on the right. -/
def setCol (f : Frame) (name v : String) : Frame :=
  if name ∈ f.cols then
    { cols := f.cols, rows := f.rows.map fun r => overwriteRow name v f.cols r }
  else
    { cols := f.cols ++ [name], rows := f.rows.map fun r => r ++ [v] }

/-- Lines 103–104 of `main.py`: `df.columns = df.columns.str.lower()`
then `df["chat_id"] = chat_id`. -/
def prepare_dataframe (df : Frame) (chat_id : String) : Frame :=
  setCol { cols := df.cols.map pyStrLower, rows := df.rows } "chat_id" chat_id

/-- `save_dataframe_to_db` from `main.py`: sanitise the chat id into a
table name, lowercase the columns, inject `chat_id`, then
`df.to_sql(..., if_exists="replace" | "append")`.  `to_sql` with
`append` creates the table when absent and otherwise appends the rows
to the stored ones; with `replace` it drops and recreates the table. -/
def save_dataframe_to_db (df : Frame) (chat_id : String) (replace : Bool) (db : DB) :
    String × DB :=
  let table_name := sanitize_table_name chat_id
  let df2 := prepare_dataframe df chat_id
  let db2 :=
    if replace then dbSet db table_name df2
    else
      match db table_name with
      | some t => dbSet db table_name { cols := t.cols, rows := t.rows ++ df2.rows }
      | none => dbSet db table_name df2
  (table_name, db2)

/-! ### Webhook notifications -/

/-- A JSON object payload of one webhook POST, as ordered key/value
pairs. -/
def Post : Type := List (String × String)

/-- `send_webhook` from `main.py` builds the JSON body
`{"texto": text, "chat_id": chat_id}` and POSTs it; delivery errors
are caught and logged, never raised, so the call always contributes
exactly this one POST. -/
def send_webhook (chat_id text : String) : Post :=
  [("texto", text), ("chat_id", chat_id)]

/-- The success message of line 130 of `main.py`. -/
def successMsg : String := "Seu arquivo foi processado com sucesso!"

/-- The failure message of line 138 of `main.py`. -/
def failMsg : String := "Ocorreu um erro ao processar seu arquivo"

/-! ### The pipeline orchestrator

`process_csv_generic` iterates over the generator returned by
`fetch_df_fn`.  One pull on that generator either yields a chunk
(`Step.ok`), raises inside the fetcher (`Step.fetchErr`), or yields a
chunk whose `save_dataframe_to_db` call then raises
(`Step.loadErr` — the failing write is modelled as storing nothing).
The steps after the first error are never reached by the loop and are
carried in the model only to state that fact. -/

/-- One iteration of the `for df in fetch_df_fn(...)` loop. -/
inductive Step where
  | ok (f : Frame)
  | fetchErr
  | loadErr (f : Frame)
deriving DecidableEq, Repr

/-- `true` for the steps on which the loop raises. -/
def isErrStep : Step → Bool
  | .ok _ => false
  | .fetchErr => true
  | .loadErr _ => true

/-- The `for` loop of `process_csv_generic` (lines 122–128): threads
the `first_chunk` flag, the last assigned `table_name` (absent until
the first successful iteration), the accumulated `total_rows` and the
database; returns `true` when the loop exhausts the steps without an
exception. -/
def runLoop (chat_id : String) (first : Bool) (tbl : Option String) (total : Nat)
    (db : DB) : List Step → DB × Option String × Nat × Bool
  | [] => (db, tbl, total, true)
  | .ok f :: rest =>
    let s := save_dataframe_to_db f chat_id first db
    runLoop chat_id false (some s.1) (total + f.rows.length) s.2 rest
  | .fetchErr :: _ => (db, tbl, total, false)
  | .loadErr _ :: _ => (db, tbl, total, false)

/-- `process_csv_generic` from `main.py`.  On loop success the success
webhook is sent first (line 130); the completion log line then reads
`table_name`, which was never assigned when the loop ran zero times —
that raises `NameError`, is caught by the `except` clause, and the
failure webhook is sent as well.  On a loop exception only the failure
webhook is sent.  Returns the final database, the POSTs made in order,
and the accumulated row total. -/
def process_csv_generic (chat_id : String) (steps : List Step) (db : DB) :
    DB × List Post × Nat :=
  match runLoop chat_id true none 0 db steps with
  | (db2, some _, total, true) => (db2, [send_webhook chat_id successMsg], total)
  | (db2, none, total, true) =>
    (db2, [send_webhook chat_id successMsg, send_webhook chat_id failMsg], total)
  | (db2, _, total, false) => (db2, [send_webhook chat_id failMsg], total)

/-! ### Chunked CSV parsing and the fetchers

`pd.read_csv(..., chunksize=B)` is modelled over a source given as a
header (the column names) and data lines already split into fields.  A
line is malformed when it has more fields than the header (pandas'
"bad line"); a line with fewer fields is padded (pandas fills NaN,
modelled as the empty cell).  With `on_bad_lines="error"` — the
default, used by `fetch_drive_csv` and `fetch_spreadsheet` — parsing
raises at the chunk containing the first bad line: full chunks before
it are yielded, rows of the failing chunk are lost.  With
`on_bad_lines="skip"` bad lines are dropped silently. -/

/-- Pad a short line with empty cells up to the header width. -/
def padTo (n : Nat) (l : List String) : List String :=
  l ++ List.replicate (n - l.length) ""

/-- Parse the data lines: the well-formed rows up to the first bad
line (all of them when skipping), and whether a parse error is raised.
-/
def parseLines (skip : Bool) (w : Nat) : List (List String) → List (List String) × Bool
  | [] => ([], false)
  | l :: ls =>
    if w < l.length then
      if skip then parseLines skip w ls else ([], true)
    else
      let r := parseLines skip w ls
      (padTo w l :: r.1, r.2)

/-- Chunking scan: `cur` is the current chunk under construction in
reverse, `k` its remaining capacity; when the capacity is exhausted
the chunk is emitted and a fresh one is started with capacity `B - 1`
after taking the current element. -/
def chunksOfGo (B : Nat) (cur : List α) (k : Nat) : List α → List (List α)
  | [] => [cur.reverse]
  | x :: xs =>
    match k with
    | 0 => cur.reverse :: chunksOfGo B [x] (B - 1) xs
    | k' + 1 => chunksOfGo B (x :: cur) k' xs

/-- Split into consecutive chunks of `B` rows each, the last possibly
shorter (meaningful for `B ≥ 1`). -/
def chunksOf (B : Nat) : List α → List (List α)
  | [] => []
  | x :: xs => chunksOfGo B [x] (B - 1) xs

/-- `pd.read_csv` with `chunksize`: the frames actually yielded by the
chunk iterator, and whether iterating it raises a parse error.  On an
error only the full chunks strictly before the failing one were
yielded.  When parsing succeeds but produces no rows (a header-only
source), the iterator yields exactly one empty frame carrying the
header's columns: pandas' first `read` call catches the engine's
`StopIteration` and returns an empty DataFrame (the first-chunk
empty path) before the iterator stops. -/
def read_csv (skip : Bool) (B : Nat) (hdr : List String)
    (lines : List (List String)) : List Frame × Bool :=
  let p := parseLines skip hdr.length lines
  if p.2 then
    (((chunksOf B p.1).filter fun c => c.length = B).map fun c =>
      { cols := hdr, rows := c }, true)
  else if p.1.isEmpty then
    ([{ cols := hdr, rows := [] }], false)
  else ((chunksOf B p.1).map fun c => { cols := hdr, rows := c }, false)

/-- `fetch_drive_csv` parsing behaviour: `pd.read_csv(output,
chunksize=chunksize)` with the default `on_bad_lines` (raise). -/
def fetch_drive_csv (B : Nat) (hdr : List String) (lines : List (List String)) :
    List Frame × Bool :=
  read_csv false B hdr lines

/-- The whole of `fetch_drive_csv` including resource handling.
`downloadOk = false` means `gdown.download` raised (network/download
failure) — that happens before the `try`, so the generator ends
without ever reaching the `finally`.  Once the download succeeded, the
parse loop runs inside `try ... finally os.remove(output)`, so the
temporary file is removed on normal exhaustion and on parse failure
alike.  Result: chunks yielded, whether the fetch raised, and whether
`os.remove(output)` ran. -/
def fetch_drive_run (downloadOk : Bool) (B : Nat) (hdr : List String)
    (lines : List (List String)) : List Frame × Bool × Bool :=
  if downloadOk then
    let r := fetch_drive_csv B hdr lines
    (r.1, r.2, true)
  else ([], true, false)

/-- The database after loading a list of frames in order, the first
one with `replace` equal to the given flag and all later ones with
`replace = False` (the loop body of `process_csv_generic`, database
component only). -/
def loadAll (chat_id : String) : Bool → DB → List Frame → DB
  | _, db, [] => db
  | first, db, f :: fs =>
    loadAll chat_id false (save_dataframe_to_db f chat_id first db).2 fs

/-! ### Character-level lemmas for the table namer -/

theorem toNat_ofNat_valid (n : Nat) (h : n < 55296) : (Char.ofNat n).toNat = n := by
  have hv : n.isValidChar := Or.inl h
  rw [Char.ofNat, dif_pos hv]
  rfl

theorem isCasedUpper_iff (c : Char) :
    isCasedUpper c = true ↔
      (65 ≤ c.toNat ∧ c.toNat ≤ 90) ∨
      (192 ≤ c.toNat ∧ c.toNat ≤ 222 ∧ c.toNat ≠ 215) := by
  simp [isCasedUpper]
  tauto

theorem toNat_pyLower (c : Char) :
    (pyLower c).toNat =
      if (65 ≤ c.toNat ∧ c.toNat ≤ 90) ∨
         (192 ≤ c.toNat ∧ c.toNat ≤ 222 ∧ c.toNat ≠ 215) then
        c.toNat + 32
      else if c.toNat = 376 then 255
      else c.toNat := by
  unfold pyLower
  by_cases h : isCasedUpper c = true
  · rw [if_pos h, if_pos ((isCasedUpper_iff c).mp h)]
    have hb : c.toNat + 32 < 55296 := by
      rcases (isCasedUpper_iff c).mp h with h1 | h1 <;> omega
    exact toNat_ofNat_valid _ hb
  · rw [if_neg h, if_neg (fun hp => h ((isCasedUpper_iff c).mpr hp))]
    by_cases h2 : c.toNat = 376
    · rw [if_pos h2, if_pos h2]
      exact toNat_ofNat_valid 255 (by omega)
    · rw [if_neg h2, if_neg h2]

theorem pyLower_eq_self (c : Char) (h : isCasedUpper c = false)
    (h2 : c.toNat ≠ 376) : pyLower c = c := by
  unfold pyLower
  rw [h]
  simp only [Bool.false_eq_true, if_false]
  rw [if_neg h2]

theorem pyLower_pyLower (c : Char) : pyLower (pyLower c) = pyLower c := by
  have hl := toNat_pyLower c
  apply pyLower_eq_self
  · cases hq : isCasedUpper (pyLower c)
    · rfl
    · exfalso
      have hr := (isCasedUpper_iff _).mp hq
      split at hl
      · omega
      · split at hl <;> omega
  · split at hl
    · omega
    · split at hl <;> omega

theorem isAsciiLetter_iff (c : Char) :
    isAsciiLetter c = true ↔
      (65 ≤ c.toNat ∧ c.toNat ≤ 90) ∨ (97 ≤ c.toNat ∧ c.toNat ≤ 122) := by
  simp [isAsciiLetter]

theorem isAsciiWord_iff (c : Char) :
    isAsciiWord c = true ↔
      (65 ≤ c.toNat ∧ c.toNat ≤ 90) ∨ (97 ≤ c.toNat ∧ c.toNat ≤ 122) ∨
      (48 ≤ c.toNat ∧ c.toNat ≤ 57) ∨ c.toNat = 95 := by
  simp only [isAsciiWord, isAsciiLetter, isAsciiDigit,
    Bool.or_eq_true, Bool.and_eq_true, decide_eq_true_eq]
  constructor <;> intro h <;> omega

theorem pyIsWordChar_iff (c : Char) :
    pyIsWordChar c = true ↔
      (65 ≤ c.toNat ∧ c.toNat ≤ 90) ∨ (97 ≤ c.toNat ∧ c.toNat ≤ 122) ∨
      (48 ≤ c.toNat ∧ c.toNat ≤ 57) ∨ c.toNat = 95 ∨
      c.toNat = 170 ∨ c.toNat = 181 ∨ c.toNat = 186 ∨
      c.toNat = 178 ∨ c.toNat = 179 ∨ c.toNat = 185 ∨
      c.toNat = 188 ∨ c.toNat = 189 ∨ c.toNat = 190 ∨
      (192 ≤ c.toNat ∧ c.toNat ≤ 255 ∧ c.toNat ≠ 215 ∧ c.toNat ≠ 247) ∨
      (256 ≤ c.toNat ∧ (c.toNat < 768 ∨ 879 < c.toNat)) := by
  simp only [pyIsWordChar, isAsciiWord, isAsciiLetter, isAsciiDigit,
    Bool.or_eq_true, Bool.and_eq_true, decide_eq_true_eq]
  constructor <;> intro h <;> omega

theorem isAsciiLetter_pyLower (c : Char) (h : isAsciiLetter c = true) :
    isAsciiLetter (pyLower c) = true := by
  rw [isAsciiLetter_iff] at h ⊢
  have hl := toNat_pyLower c
  split at hl
  · omega
  · split at hl <;> omega

theorem isAsciiWord_pyLower (c : Char) (h : isAsciiWord c = true) :
    isAsciiWord (pyLower c) = true := by
  rw [isAsciiWord_iff] at h ⊢
  have hl := toNat_pyLower c
  split at hl
  · omega
  · split at hl <;> omega

theorem isAsciiWord_of_word_ascii (c : Char) (hw : pyIsWordChar c = true)
    (ha : c.toNat ≤ 127) : isAsciiWord c = true := by
  rw [pyIsWordChar_iff] at hw
  rw [isAsciiWord_iff]
  omega

theorem toNat_pyLower_ne_dotI (c : Char) (h : c.toNat ≠ 304) :
    (pyLower c).toNat ≠ 304 := by
  have hl := toNat_pyLower c
  split at hl
  · omega
  · split at hl <;> omega

theorem pyLowerChar_eq_of_ne (c : Char) (h : c.toNat ≠ 304) :
    pyLowerChar c = [pyLower c] := by
  unfold pyLowerChar
  rw [if_neg h]

theorem lowerData_pyLowerChar (c : Char) :
    lowerData (pyLowerChar c) = pyLowerChar c := by
  by_cases h : c.toNat = 304
  · rw [show pyLowerChar c = ['i', Char.ofNat 775] from by
      unfold pyLowerChar; rw [if_pos h]]
    decide
  · rw [pyLowerChar_eq_of_ne c h]
    show pyLowerChar (pyLower c) ++ lowerData [] = [pyLower c]
    rw [pyLowerChar_eq_of_ne _ (toNat_pyLower_ne_dotI c h)]
    show [pyLower (pyLower c)] ++ [] = [pyLower c]
    rw [pyLower_pyLower]
    rfl

theorem lowerData_append (l1 l2 : List Char) :
    lowerData (l1 ++ l2) = lowerData l1 ++ lowerData l2 := by
  induction l1 with
  | nil => rfl
  | cons c cs ih => simp [lowerData, ih]

theorem lowerData_idem (l : List Char) :
    lowerData (lowerData l) = lowerData l := by
  induction l with
  | nil => rfl
  | cons c cs ih =>
    show lowerData (pyLowerChar c ++ lowerData cs) = _
    rw [lowerData_append, ih, lowerData_pyLowerChar]
    rfl

theorem mem_lowerData (l : List Char) (c : Char) (h : c ∈ lowerData l) :
    ∃ d ∈ l, c ∈ pyLowerChar d := by
  induction l with
  | nil => simp [lowerData] at h
  | cons d ds ih =>
    rw [show lowerData (d :: ds) = pyLowerChar d ++ lowerData ds from rfl,
      List.mem_append] at h
    rcases h with h | h
    · exact ⟨d, List.mem_cons_self d ds, h⟩
    · rcases ih h with ⟨e, he, hce⟩
      exact ⟨e, List.mem_cons_of_mem _ he, hce⟩

/-! ### Structure of `sanitize_table_name` -/

theorem mem_pySubWPlusAux (l : List Char) (b : Bool) (c : Char)
    (h : c ∈ pySubWPlusAux l b) : c ∈ l ∨ c = '_' := by
  induction l generalizing b with
  | nil => simp [pySubWPlusAux] at h
  | cons d cs ih =>
    by_cases hw : pyIsWordChar d
    · simp only [pySubWPlusAux, if_pos hw, List.mem_cons] at h
      rcases h with h | h
      · exact Or.inl (by simp [h])
      · rcases ih false h with h2 | h2
        · exact Or.inl (List.mem_cons_of_mem _ h2)
        · exact Or.inr h2
    · cases b with
      | true =>
        simp [pySubWPlusAux, hw] at h
        rcases ih true h with h2 | h2
        · exact Or.inl (List.mem_cons_of_mem _ h2)
        · exact Or.inr h2
      | false =>
        simp [pySubWPlusAux, hw] at h
        rcases h with h | h
        · exact Or.inr h
        · rcases ih true h with h2 | h2
          · exact Or.inl (List.mem_cons_of_mem _ h2)
          · exact Or.inr h2

theorem word_of_mem_pySubWPlusAux (l : List Char) (b : Bool) (c : Char)
    (h : c ∈ pySubWPlusAux l b) : pyIsWordChar c = true := by
  induction l generalizing b with
  | nil => simp [pySubWPlusAux] at h
  | cons d cs ih =>
    by_cases hw : pyIsWordChar d
    · simp only [pySubWPlusAux, if_pos hw, List.mem_cons] at h
      rcases h with h | h
      · exact h ▸ hw
      · exact ih false h
    · cases b with
      | true =>
        simp [pySubWPlusAux, hw] at h
        exact ih true h
      | false =>
        simp [pySubWPlusAux, hw] at h
        rcases h with h | h
        · subst h; decide
        · exact ih true h

theorem pySubWPlus_eq_self (l : List Char) (h : ∀ c ∈ l, pyIsWordChar c = true) :
    pySubWPlus l = l := by
  unfold pySubWPlus
  induction l with
  | nil => rfl
  | cons d cs ih =>
    have hd : pyIsWordChar d = true := h d (List.mem_cons_self d cs)
    simp only [pySubWPlusAux, if_pos hd]
    exact congrArg (d :: ·) (ih fun c hc => h c (List.mem_cons_of_mem _ hc))

theorem startsWith_pyAddUsuario (l : List Char) :
    startsWithAsciiLetter (pyAddUsuario l) = true := by
  unfold pyAddUsuario
  split
  · assumption
  · rfl

theorem mem_pyAddUsuario (l : List Char) (c : Char) (h : c ∈ pyAddUsuario l) :
    c ∈ l ∨ c ∈ "usuario_".data := by
  unfold pyAddUsuario at h
  split at h
  · exact Or.inl h
  · rcases List.mem_append.mp h with h2 | h2
    · exact Or.inr h2
    · exact Or.inl h2

theorem startsWith_lowerData (l : List Char) (h : startsWithAsciiLetter l = true) :
    startsWithAsciiLetter (lowerData l) = true := by
  cases l with
  | nil => simp [startsWithAsciiLetter] at h
  | cons c cs =>
    have h1 : isAsciiLetter c = true := h
    have hne : c.toNat ≠ 304 := by
      rw [isAsciiLetter_iff] at h1
      omega
    show startsWithAsciiLetter (pyLowerChar c ++ lowerData cs) = true
    rw [pyLowerChar_eq_of_ne c hne]
    show isAsciiLetter (pyLower c) = true
    exact isAsciiLetter_pyLower c h1

theorem sanitize_data (s : String) :
    (sanitize_table_name s).data = lowerData (pyAddUsuario (pySubWPlus s.data)) := rfl

theorem sanitize_startsWith (s : String) :
    startsWithAsciiLetter (sanitize_table_name s).data = true := by
  rw [sanitize_data]
  exact startsWith_lowerData _ (startsWith_pyAddUsuario _)

theorem pyStrLower_sanitize (s : String) :
    pyStrLower (sanitize_table_name s) = sanitize_table_name s := by
  unfold pyStrLower
  rw [sanitize_data, lowerData_idem]
  rfl

theorem matchesIdent_of (l : List Char) (h1 : startsWithAsciiLetter l = true)
    (h2 : ∀ c ∈ l, isAsciiWord c = true) : matchesIdent l = true := by
  cases l with
  | nil => simp [startsWithAsciiLetter] at h1
  | cons c cs =>
    simp only [matchesIdent, Bool.and_eq_true]
    exact ⟨h1, List.all_eq_true.mpr fun d hd => h2 d (List.mem_cons_of_mem _ hd)⟩

theorem usuario_all_asciiWord : ∀ c ∈ "usuario_".data, isAsciiWord c = true := by decide

theorem sanitize_ascii_word (s : String) (hs : ∀ c ∈ s.data, c.toNat ≤ 127) :
    ∀ c ∈ (sanitize_table_name s).data, isAsciiWord c = true := by
  intro c hc
  rw [sanitize_data] at hc
  rcases mem_lowerData _ c hc with ⟨d, hd, hcd⟩
  have hda : isAsciiWord d = true := by
    rcases mem_pyAddUsuario _ d hd with h | h
    · have hw := word_of_mem_pySubWPlusAux _ false d h
      rcases mem_pySubWPlusAux _ false d h with h2 | h2
      · exact isAsciiWord_of_word_ascii d hw (hs d h2)
      · subst h2; decide
    · exact usuario_all_asciiWord d h
  have hne : d.toNat ≠ 304 := by
    rw [isAsciiWord_iff] at hda
    omega
  rw [pyLowerChar_eq_of_ne d hne, List.mem_singleton] at hcd
  subst hcd
  exact isAsciiWord_pyLower d hda

theorem sanitize_eq_self (t : String)
    (hw : ∀ c ∈ t.data, pyIsWordChar c = true)
    (hs : startsWithAsciiLetter t.data = true)
    (hl : lowerData t.data = t.data) :
    sanitize_table_name t = t := by
  unfold sanitize_table_name
  rw [pySubWPlus_eq_self _ hw]
  unfold pyAddUsuario
  rw [if_pos hs, hl]

/-! ### Claims about the table namer -/

/-- C5, counterexample: on the non-ASCII input `"é"` (a Unicode word
character for `re`, so `\W+` does not replace it, and already
lowercase) the sanitised name is `"usuario_é"`, which does not match
`^[a-zA-Z][a-zA-Z0-9_]*$`.  The claim "for every input string
(including strings containing non-ASCII characters) `sanitize(s)`
matches `^[a-zA-Z][a-zA-Z0-9_]*$`" is therefore false. -/
theorem sanitize_nonascii_counterexample :
    sanitize_table_name "é" = "usuario_é" ∧
    matchesIdent (sanitize_table_name "é").data = false := by decide

/-- C5 (amended): for every input string consisting of ASCII
characters (including the empty string), `sanitize_table_name`
produces a string matching `^[a-zA-Z][a-zA-Z0-9_]*$` that is entirely
lowercase. -/
theorem sanitize_ascii_matches (s : String) (h : ∀ c ∈ s.data, c.toNat ≤ 127) :
    matchesIdent (sanitize_table_name s).data = true ∧
    pyStrLower (sanitize_table_name s) = sanitize_table_name s :=
  ⟨matchesIdent_of _ (sanitize_startsWith s) (sanitize_ascii_word s h),
   pyStrLower_sanitize s⟩

/-- Witness for the amended C5 at the spec's own scenario input. -/
theorem sanitize_ascii_matches_witness :
    (∀ c ∈ ("123 Main!" : String).data, c.toNat ≤ 127) ∧
    (matchesIdent (sanitize_table_name "123 Main!").data = true ∧
     pyStrLower (sanitize_table_name "123 Main!") = sanitize_table_name "123 Main!") :=
  ⟨by decide, sanitize_ascii_matches "123 Main!" (by decide)⟩

/-- C8, counterexample: `sanitize` is not idempotent on `"İ"`
(U+0130).  Its full-casing lowercase is `i` followed by the combining
dot above U+0307, so `sanitize("İ") = "usuario_i" + U+0307`; but
U+0307 is a combining mark, not a word character for `re`, so a
second application replaces it with `_`, giving `"usuario_i_"` —
matching real Python, where `sanitize(sanitize("İ")) ≠ sanitize("İ")`.
-/
theorem sanitize_not_idempotent_counterexample :
    (sanitize_table_name "İ").data = "usuario_i".data ++ [Char.ofNat 0x307] ∧
    sanitize_table_name (sanitize_table_name "İ") = "usuario_i_" ∧
    sanitize_table_name (sanitize_table_name "İ") ≠ sanitize_table_name "İ" := by
  refine ⟨by decide, by decide, by decide⟩

/-- C8 (amended): `sanitize_table_name` is deterministic (equal inputs
give equal outputs — it is a pure function of its argument), and
idempotent on strings of ASCII characters; idempotence fails for
İ (U+0130), whose full-casing lowercase introduces the non-word
combining dot U+0307 that a second pass replaces with `_`. -/
theorem sanitize_ascii_idempotent_deterministic :
    (∀ x : String, (∀ c ∈ x.data, c.toNat ≤ 127) →
      sanitize_table_name (sanitize_table_name x) = sanitize_table_name x) ∧
    (∀ x y : String, x = y → sanitize_table_name x = sanitize_table_name y) := by
  constructor
  · intro x hx
    apply sanitize_eq_self
    · intro c hc
      have ha := sanitize_ascii_word x hx c hc
      rw [isAsciiWord_iff] at ha
      rw [pyIsWordChar_iff]
      omega
    · exact sanitize_startsWith x
    · exact congrArg String.data (pyStrLower_sanitize x)
  · intro x y hxy
    rw [hxy]

/-- Witness for the amended C8 at concrete inputs. -/
theorem sanitize_ascii_idempotent_deterministic_witness :
    (∀ c ∈ ("123 Main!" : String).data, c.toNat ≤ 127) ∧
    sanitize_table_name (sanitize_table_name "123 Main!") = sanitize_table_name "123 Main!" ∧
    sanitize_table_name "a b" = sanitize_table_name "a b" :=
  ⟨by decide,
   sanitize_ascii_idempotent_deterministic.1 "123 Main!" (by decide),
   sanitize_ascii_idempotent_deterministic.2 "a b" "a b" rfl⟩

/-! ### Orchestrator lemmas -/

theorem runLoop_map_ok (chat_id : String) (frames : List Frame) :
    ∀ (first : Bool) (tbl : Option String) (total : Nat) (db : DB),
    runLoop chat_id first tbl total db (frames.map Step.ok) =
      (loadAll chat_id first db frames,
       (if frames.isEmpty then tbl else some (sanitize_table_name chat_id)),
       total + (frames.map fun f => f.rows.length).sum, true) := by
  induction frames with
  | nil =>
    intro first tbl total db
    simp [runLoop, loadAll]
  | cons f fs ih =>
    intro first tbl total db
    simp only [List.map_cons, runLoop, loadAll]
    rw [ih]
    have h1 : (save_dataframe_to_db f chat_id first db).1 = sanitize_table_name chat_id := rfl
    rw [h1]
    cases fs <;> simp [Nat.add_assoc]

theorem runLoop_ok_then_err (chat_id : String) (pre : List Frame) (st : Step)
    (rest : List Step) (herr : isErrStep st = true) :
    ∀ (first : Bool) (tbl : Option String) (total : Nat) (db : DB),
    runLoop chat_id first tbl total db (pre.map Step.ok ++ st :: rest) =
      (loadAll chat_id first db pre,
       (if pre.isEmpty then tbl else some (sanitize_table_name chat_id)),
       total + (pre.map fun f => f.rows.length).sum, false) := by
  induction pre with
  | nil =>
    intro first tbl total db
    cases st with
    | ok f => simp [isErrStep] at herr
    | fetchErr => simp [runLoop, loadAll]
    | loadErr f => simp [runLoop, loadAll]
  | cons f fs ih =>
    intro first tbl total db
    simp only [List.map_cons, List.cons_append, runLoop, loadAll, List.append_eq]
    rw [ih]
    have h1 : (save_dataframe_to_db f chat_id first db).1 = sanitize_table_name chat_id := rfl
    rw [h1]
    cases fs <;> simp [Nat.add_assoc]

theorem runLoop_tbl_some (chat_id : String) (steps : List Step) :
    ∀ (first : Bool) (total : Nat) (db : DB) (t : String),
    ∃ u, (runLoop chat_id first (some t) total db steps).2.1 = some u := by
  induction steps with
  | nil => intro first total db t; exact ⟨t, rfl⟩
  | cons s rest ih =>
    intro first total db t
    cases s with
    | ok f => exact ih false _ _ _
    | fetchErr => exact ⟨t, rfl⟩
    | loadErr f => exact ⟨t, rfl⟩

/-! ### Claims about the orchestrator -/

/-- C3, evaluation at the failing input: on a run whose fetcher yields
zero batches, the loop exhausts without error, the success webhook is
sent (line 130), and then the completion log line raises `NameError`
because `table_name` was never assigned, so the `except` clause sends
the failure webhook as well — two notifications in one run, not one. -/
theorem zero_batch_run_notifies_twice :
    (process_csv_generic "123" [] emptyDB).2.1 =
      [send_webhook "123" successMsg, send_webhook "123" failMsg] ∧
    ((process_csv_generic "123" [] emptyDB).2.1).length = 2 := by
  constructor <;> rfl

/-- C4: if the fetcher or the loader raises on batch `k` (= `pre.length + 1`),
the orchestrator stops immediately — the steps after the error never
influence the outcome (they do not appear on the right-hand side) —
the database holds exactly the already-written batches `1..k-1`
(`loadAll` over `pre`, no rollback), and exactly one failure
notification is sent. -/
theorem error_stops_run_keeps_batches (chat_id : String) (db : DB)
    (pre : List Frame) (st : Step) (rest : List Step)
    (herr : isErrStep st = true) :
    process_csv_generic chat_id (pre.map Step.ok ++ st :: rest) db =
      (loadAll chat_id true db pre, [send_webhook chat_id failMsg],
       (pre.map fun f => f.rows.length).sum) := by
  unfold process_csv_generic
  rw [runLoop_ok_then_err chat_id pre st rest herr]
  cases pre <;> simp

/-- Witness for C4: the fetcher fails on batch 2; batch 1 stays. -/
theorem error_stops_run_keeps_batches_witness :
    isErrStep Step.fetchErr = true ∧
    process_csv_generic "c" (([(⟨["a"], [["1"]]⟩ : Frame)].map Step.ok) ++
        Step.fetchErr :: [Step.ok (⟨["a"], [["2"]]⟩ : Frame)]) emptyDB =
      (loadAll "c" true emptyDB [(⟨["a"], [["1"]]⟩ : Frame)], [send_webhook "c" failMsg],
       ([(⟨["a"], [["1"]]⟩ : Frame)].map fun f => f.rows.length).sum) :=
  ⟨rfl, error_stops_run_keeps_batches "c" emptyDB [(⟨["a"], [["1"]]⟩ : Frame)]
    Step.fetchErr [Step.ok (⟨["a"], [["2"]]⟩ : Frame)] rfl⟩

/-- C6, counterexample: on a concrete successful one-batch run the
single webhook POST's JSON payload has the fields `texto` and
`chat_id` — there is no field named `text`, contradicting the claimed
payload `{chat_id, text}`. -/
theorem webhook_payload_counterexample :
    (process_csv_generic "c" [Step.ok ⟨["a"], [["1"]]⟩] emptyDB).2.1 =
      [[("texto", successMsg), ("chat_id", "c")]] ∧
    ∀ p ∈ (process_csv_generic "c" [Step.ok ⟨["a"], [["1"]]⟩] emptyDB).2.1,
      "text" ∉ p.map Prod.fst := by
  constructor
  · rfl
  · intro p hp
    simp only [show (process_csv_generic "c" [Step.ok ⟨["a"], [["1"]]⟩] emptyDB).2.1 =
      [[("texto", successMsg), ("chat_id", "c")]] from rfl, List.mem_singleton] at hp
    subst hp
    decide

/-- C6 (amended): every run whose fetcher is pulled at least once
(equivalently, every run except the error-free zero-batch run of C3)
makes exactly one webhook POST, whose JSON payload is the object with
the two fields `texto` (the status message) and `chat_id` (the
request's chatId). -/
theorem run_posts_single_texto_payload (chat_id : String) (db : DB)
    (s : Step) (rest : List Step) :
    ∃ msg, (process_csv_generic chat_id (s :: rest) db).2.1 =
      [[("texto", msg), ("chat_id", chat_id)]] := by
  cases s with
  | ok f =>
    unfold process_csv_generic
    simp only [runLoop]
    rcases runLoop_tbl_some chat_id rest false
      (0 + f.rows.length) (save_dataframe_to_db f chat_id true db).2
      (save_dataframe_to_db f chat_id true db).1 with ⟨u, hu⟩
    rcases hr : runLoop chat_id false (some (save_dataframe_to_db f chat_id true db).1)
      (0 + f.rows.length) (save_dataframe_to_db f chat_id true db).2 rest with ⟨db2, tbl2, total2, ok2⟩
    rw [hr] at hu
    simp only at hu
    subst hu
    cases ok2
    · exact ⟨failMsg, rfl⟩
    · exact ⟨successMsg, rfl⟩
  | fetchErr => exact ⟨failMsg, rfl⟩
  | loadErr f => exact ⟨failMsg, rfl⟩

/-! ### Loader lemmas -/

theorem overwriteRow_length (name v : String) :
    ∀ (cols r : List String), (overwriteRow name v cols r).length = r.length := by
  intro cols
  induction cols with
  | nil => intro r; cases r <;> rfl
  | cons c cs ih =>
    intro r
    cases r with
    | nil => rfl
    | cons x xs => simp [overwriteRow, ih]

theorem overwriteRow_get (name v : String) :
    ∀ (cols r : List String), r.length = cols.length →
    ∀ i : Nat, cols[i]? = some name → (overwriteRow name v cols r)[i]? = some v := by
  intro cols
  induction cols with
  | nil => intro r h i hi; simp at hi
  | cons c cs ih =>
    intro r h i hi
    cases r with
    | nil => simp at h
    | cons x xs =>
      cases i with
      | zero =>
        rw [List.getElem?_cons_zero] at hi
        have hc : c = name := by injection hi
        simp [overwriteRow, hc]
      | succ n =>
        rw [List.getElem?_cons_succ] at hi
        simp only [overwriteRow, List.getElem?_cons_succ]
        exact ih xs (by simpa using h) n hi

theorem setCol_rows_length (f : Frame) (name v : String) :
    (setCol f name v).rows.length = f.rows.length := by
  unfold setCol
  split <;> simp

theorem setCol_mem_cols (f : Frame) (name v : String) :
    name ∈ (setCol f name v).cols := by
  unfold setCol
  split
  · assumption
  · simp

theorem setCol_cell (f : Frame) (name v : String)
    (hlen : ∀ r ∈ f.rows, r.length = f.cols.length) :
    ∀ r ∈ (setCol f name v).rows, ∀ i : Nat,
      (setCol f name v).cols[i]? = some name → r[i]? = some v := by
  unfold setCol
  split
  · rename_i hmem
    intro r hr i hi
    simp only at hr hi
    rcases List.mem_map.mp hr with ⟨r0, hr0, rfl⟩
    exact overwriteRow_get name v f.cols r0 (hlen r0 hr0) i hi
  · rename_i hmem
    intro r hr i hi
    simp only at hr hi
    rcases List.mem_map.mp hr with ⟨r0, hr0, rfl⟩
    by_cases hlt : i < f.cols.length
    · rw [List.getElem?_append_left hlt] at hi
      exact absurd (List.getElem?_mem hi) hmem
    · have hle : f.cols.length ≤ i := Nat.le_of_not_lt hlt
      rw [List.getElem?_append_right hle] at hi
      have hi2 : i - f.cols.length = 0 := by
        by_contra hne
        rcases Nat.exists_eq_succ_of_ne_zero hne with ⟨k, hk⟩
        rw [hk] at hi
        simp at hi
      rw [hi2] at hi
      have hieq : i = f.cols.length := by omega
      have : r0.length ≤ i := by rw [hieq, hlen r0 hr0]
      rw [List.getElem?_append_right this]
      have : i - r0.length = 0 := by rw [hieq, hlen r0 hr0]; omega
      rw [this]
      rfl

theorem prepare_cols_eq (df1 df2 : Frame) (chat_id : String)
    (h : df1.cols.map pyStrLower = df2.cols.map pyStrLower) :
    (prepare_dataframe df1 chat_id).cols = (prepare_dataframe df2 chat_id).cols := by
  unfold prepare_dataframe setCol
  simp only [h]
  split <;> rfl

theorem prepare_rows_length (df : Frame) (chat_id : String) :
    (prepare_dataframe df chat_id).rows.length = df.rows.length := by
  unfold prepare_dataframe
  rw [setCol_rows_length]

theorem save_replace_at (df : Frame) (chat_id : String) (db : DB) :
    (save_dataframe_to_db df chat_id true db).2 (sanitize_table_name chat_id) =
      some (prepare_dataframe df chat_id) := by
  simp [save_dataframe_to_db, dbSet]

theorem save_replace_other (df : Frame) (chat_id : String) (db : DB) (t : String)
    (h : t ≠ sanitize_table_name chat_id) :
    (save_dataframe_to_db df chat_id true db).2 t = db t := by
  simp [save_dataframe_to_db, dbSet, h]

theorem save_append_at (df : Frame) (chat_id : String) (db : DB) (T : Frame)
    (h : db (sanitize_table_name chat_id) = some T) :
    (save_dataframe_to_db df chat_id false db).2 (sanitize_table_name chat_id) =
      some ⟨T.cols, T.rows ++ (prepare_dataframe df chat_id).rows⟩ := by
  simp [save_dataframe_to_db, h, dbSet]

theorem save_append_other (df : Frame) (chat_id : String) (db : DB) (t : String)
    (h : t ≠ sanitize_table_name chat_id) :
    (save_dataframe_to_db df chat_id false db).2 t = db t := by
  cases hdb : db (sanitize_table_name chat_id) with
  | none => simp [save_dataframe_to_db, hdb, dbSet, h]
  | some T => simp [save_dataframe_to_db, hdb, dbSet, h]

theorem loadAll_append_at (chat_id : String) (fs : List Frame) :
    ∀ (db : DB) (T : Frame), db (sanitize_table_name chat_id) = some T →
    loadAll chat_id false db fs (sanitize_table_name chat_id) =
      some ⟨T.cols,
        T.rows ++ (fs.map fun f => (prepare_dataframe f chat_id).rows).flatten⟩ := by
  induction fs with
  | nil =>
    intro db T h
    simpa using h
  | cons f rest ih =>
    intro db T h
    have step := save_append_at f chat_id db T h
    have := ih (save_dataframe_to_db f chat_id false db).2
      ⟨T.cols, T.rows ++ (prepare_dataframe f chat_id).rows⟩ step
    simpa [List.append_assoc] using this

theorem loadAll_other (chat_id : String) (fs : List Frame) :
    ∀ (first : Bool) (db : DB) (t : String), t ≠ sanitize_table_name chat_id →
    loadAll chat_id first db fs t = db t := by
  induction fs with
  | nil => intro first db t ht; rfl
  | cons f rest ih =>
    intro first db t ht
    show loadAll chat_id false (save_dataframe_to_db f chat_id first db).2 rest t = db t
    rw [ih false _ t ht]
    cases first
    · exact save_append_other f chat_id db t ht
    · exact save_replace_other f chat_id db t ht

theorem pyStrLower_idem (s : String) : pyStrLower (pyStrLower s) = pyStrLower s := by
  unfold pyStrLower
  exact congrArg String.mk (lowerData_idem s.data)

theorem map_pyStrLower_idem (l : List String) :
    (l.map pyStrLower).map pyStrLower = l.map pyStrLower := by
  rw [List.map_map]
  exact List.map_congr_left fun s _ => pyStrLower_idem s

theorem prepare_cols_lower (f : Frame) (chat_id : String) :
    (prepare_dataframe f chat_id).cols.map pyStrLower =
      (prepare_dataframe f chat_id).cols := by
  unfold prepare_dataframe setCol
  split
  · simp only
    exact map_pyStrLower_idem _
  · simp only [List.map_append, map_pyStrLower_idem]
    rfl

theorem prepare_mem_chat_id (f : Frame) (chat_id : String) :
    "chat_id" ∈ (prepare_dataframe f chat_id).cols :=
  setCol_mem_cols _ _ _

theorem prepare_cell (f : Frame) (chat_id : String)
    (hlen : ∀ r ∈ f.rows, r.length = f.cols.length) :
    ∀ r ∈ (prepare_dataframe f chat_id).rows, ∀ i : Nat,
      (prepare_dataframe f chat_id).cols[i]? = some "chat_id" →
        r[i]? = some chat_id := by
  apply setCol_cell
  intro r hr
  simpa using hlen r hr

/-! ### Claims about the loader and a full successful run -/

/-- C10: when the source frame has a column whose name lowercases to
`chat_id`, the loader's preparation (`df.columns.str.lower()` followed
by `df["chat_id"] = chat_id`) keeps the column set unchanged and
overwrites every cell of every such column with the request's chat id,
and `save_dataframe_to_db` with `replace=True` stores exactly this
prepared frame — the source's original `chat_id` data is never
persisted. -/
theorem chat_id_column_overwritten (df : Frame) (chat_id : String) (db : DB)
    (hmem : "chat_id" ∈ df.cols.map pyStrLower)
    (hlen : ∀ r ∈ df.rows, r.length = df.cols.length) :
    (save_dataframe_to_db df chat_id true db).2 (sanitize_table_name chat_id) =
      some (prepare_dataframe df chat_id) ∧
    (prepare_dataframe df chat_id).cols = df.cols.map pyStrLower ∧
    (∀ r ∈ (prepare_dataframe df chat_id).rows, ∀ i : Nat,
      (prepare_dataframe df chat_id).cols[i]? = some "chat_id" →
        r[i]? = some chat_id) := by
  refine ⟨save_replace_at df chat_id db, ?_, prepare_cell df chat_id hlen⟩
  unfold prepare_dataframe setCol
  simp [hmem]

/-- Witness for C10: a source with a `Chat_ID` column (and a row value
`"old"` there) gets that cell overwritten with the chat id. -/
theorem chat_id_column_overwritten_witness :
    ("chat_id" ∈ (Frame.mk ["Chat_ID", "x"] [["old", "1"]]).cols.map pyStrLower) ∧
    (∀ r ∈ (Frame.mk ["Chat_ID", "x"] [["old", "1"]]).rows,
      r.length = (Frame.mk ["Chat_ID", "x"] [["old", "1"]]).cols.length) ∧
    ((save_dataframe_to_db (Frame.mk ["Chat_ID", "x"] [["old", "1"]]) "c" true emptyDB).2
        (sanitize_table_name "c") =
      some (prepare_dataframe (Frame.mk ["Chat_ID", "x"] [["old", "1"]]) "c") ∧
    (prepare_dataframe (Frame.mk ["Chat_ID", "x"] [["old", "1"]]) "c").cols =
      (Frame.mk ["Chat_ID", "x"] [["old", "1"]]).cols.map pyStrLower ∧
    (∀ r ∈ (prepare_dataframe (Frame.mk ["Chat_ID", "x"] [["old", "1"]]) "c").rows,
      ∀ i : Nat,
      (prepare_dataframe (Frame.mk ["Chat_ID", "x"] [["old", "1"]]) "c").cols[i]? =
          some "chat_id" →
        r[i]? = some "c")) :=
  ⟨by decide, by decide,
   chat_id_column_overwritten (Frame.mk ["Chat_ID", "x"] [["old", "1"]]) "c" emptyDB
     (by decide) (by decide)⟩

/-- C1: a run that completes without error (all steps yield batches;
at least one batch, since a zero-batch run raises `NameError` at the
completion log, see C3) leaves in the single target table exactly the
concatenation, in fetch order, of the prepared batches: row count
equals the total fetched rows, the `chat_id` column is present and
every row holds the request's chat id wherever the column set says
`chat_id`, all column names are lowercase, the stored content is
independent of the table's prior content (the first batch fully
replaced it — the right-hand side does not mention `db`'s value at the
target name), and no other table is touched. -/
theorem run_table_is_concatenation (chat_id : String) (db : DB)
    (f0 : Frame) (fs : List Frame)
    (hcols : ∀ f ∈ fs, f.cols.map pyStrLower = f0.cols.map pyStrLower)
    (hlen : ∀ f ∈ f0 :: fs, ∀ r ∈ f.rows, r.length = f.cols.length) :
    (process_csv_generic chat_id ((f0 :: fs).map Step.ok) db).1
        (sanitize_table_name chat_id) =
      some ⟨(prepare_dataframe f0 chat_id).cols,
        ((f0 :: fs).map fun f => (prepare_dataframe f chat_id).rows).flatten⟩ ∧
    (((f0 :: fs).map fun f => (prepare_dataframe f chat_id).rows).flatten).length =
      ((f0 :: fs).map fun f => f.rows.length).sum ∧
    "chat_id" ∈ (prepare_dataframe f0 chat_id).cols ∧
    (∀ r ∈ ((f0 :: fs).map fun f => (prepare_dataframe f chat_id).rows).flatten,
      ∀ i : Nat, (prepare_dataframe f0 chat_id).cols[i]? = some "chat_id" →
        r[i]? = some chat_id) ∧
    (prepare_dataframe f0 chat_id).cols.map pyStrLower =
      (prepare_dataframe f0 chat_id).cols ∧
    (∀ t, t ≠ sanitize_table_name chat_id →
      (process_csv_generic chat_id ((f0 :: fs).map Step.ok) db).1 t = db t) := by
  have hdb : (process_csv_generic chat_id ((f0 :: fs).map Step.ok) db).1 =
      loadAll chat_id true db (f0 :: fs) := by
    unfold process_csv_generic
    rw [runLoop_map_ok]
    rfl
  refine ⟨?_, ?_, prepare_mem_chat_id f0 chat_id, ?_, prepare_cols_lower f0 chat_id, ?_⟩
  · rw [hdb]
    have h0 := save_replace_at f0 chat_id db
    have h1 := loadAll_append_at chat_id fs (save_dataframe_to_db f0 chat_id true db).2
      (prepare_dataframe f0 chat_id) h0
    show loadAll chat_id false (save_dataframe_to_db f0 chat_id true db).2 fs
        (sanitize_table_name chat_id) = _
    rw [h1]
    simp
  · rw [List.length_flatten, List.map_map]
    apply congrArg List.sum
    apply List.map_congr_left
    intro f _
    exact prepare_rows_length f chat_id
  · intro r hr i hi
    rcases List.mem_flatten.mp hr with ⟨rows0, hrows0, hrrows⟩
    rcases List.mem_map.mp hrows0 with ⟨f, hf, rfl⟩
    have hceq : (prepare_dataframe f chat_id).cols = (prepare_dataframe f0 chat_id).cols := by
      rcases List.mem_cons.mp hf with h | h
      · rw [h]
      · exact prepare_cols_eq f f0 chat_id (hcols f h)
    exact prepare_cell f chat_id (hlen f hf) r hrrows i (by rw [hceq]; exact hi)
  · intro t ht
    rw [hdb]
    exact loadAll_other chat_id (f0 :: fs) true db t ht

/-- Witness for C1 at a concrete one-batch run. -/
theorem run_table_is_concatenation_witness :
    (∀ f ∈ ([] : List Frame), f.cols.map pyStrLower =
      (Frame.mk ["A"] [["1"]]).cols.map pyStrLower) ∧
    (∀ f ∈ Frame.mk ["A"] [["1"]] :: ([] : List Frame), ∀ r ∈ f.rows,
      r.length = f.cols.length) ∧
    ((process_csv_generic "c"
        ((Frame.mk ["A"] [["1"]] :: ([] : List Frame)).map Step.ok) emptyDB).1
        (sanitize_table_name "c") =
      some ⟨(prepare_dataframe (Frame.mk ["A"] [["1"]]) "c").cols,
        ((Frame.mk ["A"] [["1"]] :: ([] : List Frame)).map fun f =>
          (prepare_dataframe f "c").rows).flatten⟩ ∧
     (((Frame.mk ["A"] [["1"]] :: ([] : List Frame)).map fun f =>
         (prepare_dataframe f "c").rows).flatten).length =
       ((Frame.mk ["A"] [["1"]] :: ([] : List Frame)).map fun f => f.rows.length).sum ∧
     "chat_id" ∈ (prepare_dataframe (Frame.mk ["A"] [["1"]]) "c").cols ∧
     (∀ r ∈ ((Frame.mk ["A"] [["1"]] :: ([] : List Frame)).map fun f =>
         (prepare_dataframe f "c").rows).flatten,
       ∀ i : Nat,
         (prepare_dataframe (Frame.mk ["A"] [["1"]]) "c").cols[i]? = some "chat_id" →
           r[i]? = some "c") ∧
     (prepare_dataframe (Frame.mk ["A"] [["1"]]) "c").cols.map pyStrLower =
       (prepare_dataframe (Frame.mk ["A"] [["1"]]) "c").cols ∧
     (∀ t, t ≠ sanitize_table_name "c" →
       (process_csv_generic "c"
          ((Frame.mk ["A"] [["1"]] :: ([] : List Frame)).map Step.ok) emptyDB).1 t =
         emptyDB t)) :=
  ⟨by decide, by decide,
   run_table_is_concatenation "c" emptyDB (Frame.mk ["A"] [["1"]]) []
     (by decide) (by decide)⟩

/-! ### Chunking and parse lemmas for the fetchers -/

theorem chunksOfGo_ne_nil (B : Nat) :
    ∀ (xs cur : List α) (k : Nat), chunksOfGo B cur k xs ≠ [] := by
  intro xs
  induction xs with
  | nil => intro cur k; simp [chunksOfGo]
  | cons x xs ih =>
    intro cur k
    cases k with
    | zero => simp [chunksOfGo]
    | succ k' => exact ih (x :: cur) k'

theorem chunksOfGo_sum (B : Nat) :
    ∀ (xs cur : List α) (k : Nat),
    ((chunksOfGo B cur k xs).map List.length).sum = cur.length + xs.length := by
  intro xs
  induction xs with
  | nil => intro cur k; simp [chunksOfGo]
  | cons x xs ih =>
    intro cur k
    cases k with
    | zero =>
      simp only [chunksOfGo, List.map_cons, List.sum_cons]
      rw [ih [x] (B - 1)]
      simp
      omega
    | succ k' =>
      simp only [chunksOfGo]
      rw [ih (x :: cur) k']
      simp
      omega

theorem nat_div_shift (n B : Nat) (hB : 0 < B) :
    1 + (n - (B - 1) + B - 1) / B = (n + 1 + B - 1) / B := by
  have h2 : n + 1 + B - 1 = n + B := by omega
  rw [h2, Nat.add_div_right n hB]
  by_cases h : B - 1 ≤ n
  · have h3 : n - (B - 1) + B - 1 = n := by omega
    rw [h3]
    exact Nat.add_comm 1 (n / B)
  · have h3 : n - (B - 1) + B - 1 = B - 1 := by omega
    rw [h3]
    rw [Nat.div_eq_of_lt (show B - 1 < B by omega),
        Nat.div_eq_of_lt (show n < B by omega)]

theorem chunksOfGo_length (B : Nat) (hB : 0 < B) :
    ∀ (xs : List α) (cur : List α) (k : Nat),
    (chunksOfGo B cur k xs).length = 1 + (xs.length - k + B - 1) / B := by
  intro xs
  induction xs with
  | nil =>
    intro cur k
    simp only [chunksOfGo, List.length_singleton, List.length_nil, Nat.zero_sub]
    rw [Nat.div_eq_of_lt (show 0 + B - 1 < B by omega)]
  | cons x xs ih =>
    intro cur k
    cases k with
    | zero =>
      simp only [chunksOfGo, List.length_cons]
      rw [ih [x] (B - 1)]
      simp only [List.length_cons, Nat.sub_zero]
      rw [← nat_div_shift xs.length B hB]
      generalize (xs.length - (B - 1) + B - 1) / B = m
      omega
    | succ k' =>
      simp only [chunksOfGo, List.length_cons]
      rw [ih (x :: cur) k']
      simp [Nat.succ_sub_succ]

theorem chunksOfGo_sizes (B : Nat) :
    ∀ (xs : List α) (cur : List α) (k : Nat), cur.length + k = B → 0 < cur.length →
    (∀ c ∈ chunksOfGo B cur k xs, 0 < c.length ∧ c.length ≤ B) ∧
    (∀ c ∈ (chunksOfGo B cur k xs).dropLast, c.length = B) := by
  intro xs
  induction xs with
  | nil =>
    intro cur k hinv hpos
    constructor
    · intro c hc
      simp only [chunksOfGo, List.mem_singleton] at hc
      subst hc
      simp only [List.length_reverse]
      omega
    · intro c hc
      simp [chunksOfGo] at hc
  | cons x xs ih =>
    intro cur k hinv hpos
    cases k with
    | zero =>
      have hB : 0 < B := by omega
      have hcur : cur.length = B := by omega
      have hih := ih [x] (B - 1) (by simp; omega) (by simp)
      constructor
      · intro c hc
        simp only [chunksOfGo, List.mem_cons] at hc
        rcases hc with hc | hc
        · subst hc; simp [List.length_reverse, hcur]; omega
        · exact hih.1 c hc
      · intro c hc
        rw [show chunksOfGo B cur 0 (x :: xs) =
            cur.reverse :: chunksOfGo B [x] (B - 1) xs from rfl,
          List.dropLast_cons_of_ne_nil (chunksOfGo_ne_nil B xs [x] (B - 1))] at hc
        rcases List.mem_cons.mp hc with hc | hc
        · subst hc; simp [List.length_reverse, hcur]
        · exact hih.2 c hc
    | succ k' =>
      exact ih (x :: cur) k' (by simp; omega) (by simp)

theorem chunksOf_sum (B : Nat) (l : List α) :
    ((chunksOf B l).map List.length).sum = l.length := by
  cases l with
  | nil => rfl
  | cons x xs =>
    show ((chunksOfGo B [x] (B - 1) xs).map List.length).sum = _
    rw [chunksOfGo_sum]
    show 1 + xs.length = xs.length + 1
    omega

theorem chunksOf_length (B : Nat) (hB : 0 < B) (l : List α) :
    (chunksOf B l).length = (l.length + B - 1) / B := by
  cases l with
  | nil =>
    show 0 = (0 + B - 1) / B
    rw [Nat.div_eq_of_lt (by omega)]
  | cons x xs =>
    show (chunksOfGo B [x] (B - 1) xs).length = _
    rw [chunksOfGo_length B hB]
    simpa using nat_div_shift xs.length B hB

theorem chunksOf_sizes (B : Nat) (hB : 0 < B) (l : List α) :
    (∀ c ∈ chunksOf B l, 0 < c.length ∧ c.length ≤ B) ∧
    (∀ c ∈ (chunksOf B l).dropLast, c.length = B) := by
  cases l with
  | nil => constructor <;> intro c hc <;> simp [chunksOf] at hc
  | cons x xs =>
    show (∀ c ∈ chunksOfGo B [x] (B - 1) xs, _) ∧ _
    exact chunksOfGo_sizes B xs [x] (B - 1) (by simp; omega) (by simp)

theorem parseLines_good (w : Nat) (lines : List (List String))
    (h : ∀ l ∈ lines, l.length ≤ w) :
    (parseLines false w lines).2 = false ∧
    (parseLines false w lines).1.length = lines.length := by
  induction lines with
  | nil => exact ⟨rfl, rfl⟩
  | cons l ls ih =>
    have hl : ¬ w < l.length := by
      have := h l (List.mem_cons_self l ls)
      omega
    have hih := ih fun x hx => h x (List.mem_cons_of_mem _ hx)
    constructor
    · simp [parseLines, hl, hih.1]
    · simp [parseLines, hl, hih.2]

/-! ### Claims about the fetchers -/

/-- C7, counterexample: a source with zero data rows (R = 0) yields
one batch — pandas' chunk iterator returns an empty first DataFrame
for a header-only source before stopping — not `⌈0/B⌉ = 0` batches as
the claim's count requires; that batch is also empty, against "every
batch ... at most B records" read together with the claimed count. -/
theorem fetch_zero_rows_counterexample :
    fetch_drive_csv 50000 ["a"] [] = ([⟨["a"], []⟩], false) ∧
    (fetch_drive_csv 50000 ["a"] []).1.length ≠
      (([] : List (List String)).length + 50000 - 1) / 50000 := by
  refine ⟨by decide, by decide⟩

/-- C7 (amended): for a source with `R ≥ 1` well-formed records
(`R = lines.length`) and a batch size `B > 0`, the fetch succeeds and
yields exactly `⌈R/B⌉` batches whose row counts sum to `R`; every
batch is nonempty with at most `B` rows, and all but possibly the
last have exactly `B` rows.  A source with zero data rows instead
yields exactly one empty batch (pandas' first-chunk empty path). -/
theorem fetch_chunk_counts (B : Nat) (hB : 0 < B) (hdr : List String)
    (lines : List (List String)) (hne : lines ≠ [])
    (hgood : ∀ l ∈ lines, l.length ≤ hdr.length) :
    ((fetch_drive_csv B hdr lines).2 = false ∧
     (fetch_drive_csv B hdr lines).1.length = (lines.length + B - 1) / B ∧
     ((fetch_drive_csv B hdr lines).1.map fun f => f.rows.length).sum = lines.length ∧
     (∀ f ∈ (fetch_drive_csv B hdr lines).1, 0 < f.rows.length ∧ f.rows.length ≤ B) ∧
     (∀ f ∈ ((fetch_drive_csv B hdr lines).1).dropLast, f.rows.length = B)) ∧
    fetch_drive_csv B hdr [] = ([⟨hdr, []⟩], false) := by
  have hp := parseLines_good hdr.length lines hgood
  have h1 : fetch_drive_csv B hdr lines =
      ((chunksOf B (parseLines false hdr.length lines).1).map fun c =>
        { cols := hdr, rows := c }, false) := by
    have hne2 : (parseLines false hdr.length lines).1.isEmpty = false := by
      have hlen0 : (parseLines false hdr.length lines).1.length = lines.length := hp.2
      have hnz : lines.length ≠ 0 := fun h0 => hne (List.length_eq_zero.mp h0)
      cases hcase : (parseLines false hdr.length lines).1 with
      | nil =>
        rw [hcase] at hlen0
        exact absurd hlen0.symm hnz
      | cons r rs => rfl
    unfold fetch_drive_csv read_csv
    simp [hp.1, hne2]
  refine ⟨?_, rfl⟩
  rw [h1]
  refine ⟨rfl, ?_, ?_, ?_, ?_⟩
  · simp only [List.length_map]
    rw [chunksOf_length B hB, hp.2]
  · simp only [List.map_map]
    have : ((chunksOf B (parseLines false hdr.length lines).1).map
        ((fun f : Frame => f.rows.length) ∘ fun c => { cols := hdr, rows := c })).sum =
        ((chunksOf B (parseLines false hdr.length lines).1).map List.length).sum := rfl
    rw [this, chunksOf_sum, hp.2]
  · intro f hf
    rcases List.mem_map.mp hf with ⟨c, hc, rfl⟩
    exact (chunksOf_sizes B hB _).1 c hc
  · intro f hf
    rw [← List.map_dropLast] at hf
    rcases List.mem_map.mp hf with ⟨c, hc, rfl⟩
    exact (chunksOf_sizes B hB _).2 c hc

/-- Witness for the amended C7: 3 well-formed lines, batch size 2 →
batches of 2 and 1 rows; and the zero-row source yields one empty
batch. -/
theorem fetch_chunk_counts_witness :
    (0 < 2) ∧ ([["x"], ["z"], ["w"]] ≠ ([] : List (List String))) ∧
    (∀ l ∈ [["x"], ["z"], ["w"]], l.length ≤ (["a"] : List String).length) ∧
    (((fetch_drive_csv 2 ["a"] [["x"], ["z"], ["w"]]).2 = false ∧
      (fetch_drive_csv 2 ["a"] [["x"], ["z"], ["w"]]).1.length =
        (([["x"], ["z"], ["w"]] : List (List String)).length + 2 - 1) / 2 ∧
      ((fetch_drive_csv 2 ["a"] [["x"], ["z"], ["w"]]).1.map fun f =>
         f.rows.length).sum = ([["x"], ["z"], ["w"]] : List (List String)).length ∧
      (∀ f ∈ (fetch_drive_csv 2 ["a"] [["x"], ["z"], ["w"]]).1,
        0 < f.rows.length ∧ f.rows.length ≤ 2) ∧
      (∀ f ∈ ((fetch_drive_csv 2 ["a"] [["x"], ["z"], ["w"]]).1).dropLast,
        f.rows.length = 2)) ∧
     fetch_drive_csv 2 ["a"] [] = ([⟨["a"], []⟩], false)) :=
  ⟨by decide, by decide, by decide,
   fetch_chunk_counts 2 (by decide) ["a"] [["x"], ["z"], ["w"]] (by decide) (by decide)⟩

/-- C9, counterexample: when `gdown.download` itself fails, the
`try/finally` protecting `os.remove(output)` has not been entered yet
(the download happens before the `try`), so no cleanup runs on that
exit path — the third component records that `os.remove` did not
execute, contradicting "deleted on every exit path — download failure
alike". -/
theorem download_failure_skips_cleanup :
    fetch_drive_run false 50000 ["a"] [["x"]] = ([], true, false) := rfl

/-- C9 (amended): once the download has succeeded, the temporary file
is removed on every exit path of the parse loop — normal exhaustion
and parse failure alike (any `lines`, including ones that make the
parse raise); only a failure of the download itself skips cleanup. -/
theorem temp_removed_after_download (B : Nat) (hdr : List String)
    (lines : List (List String)) :
    (fetch_drive_run true B hdr lines).2.2 = true := rfl

end FastApiN8n
